import Mathlib

/-!
FluxForge: verification of the schema/data replication core.

Shallow embedding of the FluxForge sources (`src/core.rs`, `src/ops.rs`,
`src/business.rs`, `src/drivers/{mod,mysql,postgres}.rs`) and proofs about
them.  Pure Rust functions become Lean functions; the database is modelled
as an oracle (lists of rows, per-row error outcomes); `Result` becomes
`Except`/`Option`.  External-library values with no behaviour beyond
(decidable) equality — `chrono` dates, `rust_decimal::Decimal`,
`serde_json::Value`, `Uuid`, `IpNetwork` — are modelled by stand-in types
whose equality is the library's `PartialEq`.  Rust `f64` is modelled by
`F64` below together with IEEE-754 equality semantics.
-/

namespace FluxForge

/-- Model of Rust `f64` at the granularity the program observes it:
a value is either a NaN, a signed infinity, or a finite value (held as an
exact rational; IEEE `==` identifies `+0.0` and `-0.0`, so both zeros are
the rational `0`). -/
inductive F64 where
  | nan : F64
  | inf (negative : Bool) : F64
  | finite (val : Rat) : F64
deriving DecidableEq, Repr

/-- IEEE-754 `==` on `F64`: NaN compares unequal to everything (itself
included); other values compare by value. -/
def F64.beq : F64 → F64 → Bool
  | .nan, _ => false
  | _, .nan => false
  | .inf s, .inf t => s == t
  | .finite a, .finite b => a == b
  | _, _ => false

/-- Source: `ForgeUniversalValue` (named `ForgeUniversalDataField` in `core.rs`):
the 17-variant universal tagged value.  Payloads: `i64`/`i32` are `Int`,
`u64` is `Nat`, `f64` is `F64`, `Vec<u8>` is `List Nat`; the chrono /
decimal / json / uuid / inet payloads are stand-ins that only carry
decidable equality (the only operation the embedded code performs on
them). -/
inductive ForgeUniversalValue where
  | Integer (a : Int)
  | UnsignedInteger (a : Nat)
  | Float (a : F64)
  | Text (s : String)
  | Binary (b : List Nat)
  | Boolean (b : Bool)
  | Year (y : Int)
  | Time (t : Nat)
  | Date (d : Nat)
  | DateTime (dt : Nat)
  | Decimal (d : Rat)
  | Json (j : Nat)
  | Uuid (u : Nat)
  | Inet (i : Nat)
  | Null
  | ZeroDateTime
deriving DecidableEq, Repr

/-- Source: `values_equal` from `src/ops.rs` (lines 33–62), arm for arm. -/
def values_equal : ForgeUniversalValue → ForgeUniversalValue → Bool
  | .Null, .Null | .ZeroDateTime, .ZeroDateTime => true
  | .Null, .ZeroDateTime | .ZeroDateTime, .Null => true
  | .Integer a, .Integer b => a == b
  | .UnsignedInteger a, .UnsignedInteger b => a == b
  | .Integer a, .UnsignedInteger b => decide (0 ≤ a) && (a.toNat == b)
  | .UnsignedInteger a, .Integer b => decide (0 ≤ b) && (a == b.toNat)
  | .Float a, .Float b => F64.beq a b
  | .Text a, .Text b => a == b
  | .Binary a, .Binary b => a == b
  | .Boolean a, .Boolean b => a == b
  | .Year a, .Year b => a == b
  | .Year a, .Integer b => a == b
  | .Integer a, .Year b => a == b
  | .Time a, .Time b => a == b
  | .Date a, .Date b => a == b
  | .DateTime a, .DateTime b => a == b
  | .Decimal a, .Decimal b => a == b
  | .Json a, .Json b => a == b
  | .Uuid a, .Uuid b => a == b
  | .Inet a, .Inet b => a == b
  | _, _ => false

/-- Source: `ForgeSchemaColumn` from `src/core.rs` (the drivers refer to it as
`ForgeColumn`).  `u32` fields are `Nat`. -/
structure ForgeColumn where
  name : String
  data_type : String
  length : Option Nat
  precision : Option Nat
  scale : Option Nat
  is_nullable : Bool
  is_primary_key : Bool
  is_unsigned : Bool
  auto_increment : Bool
  default : Option String
  comment : Option String
  on_update : Option String
  enum_values : Option (List String)
deriving DecidableEq, Repr

/-- Source: `ForgeSchemaColumn::new` from `src/core.rs`: name and type, all other
fields at their `Default` values. -/
def ForgeColumn.new (name data_type : String) : ForgeColumn :=
  { name := name
    data_type := data_type
    length := none
    precision := none
    scale := none
    is_nullable := false
    is_primary_key := false
    is_unsigned := false
    auto_increment := false
    default := none
    comment := none
    on_update := none
    enum_values := none }

/-- Source: `ForgeSchemaIndex` from `src/core.rs`. -/
structure ForgeIndex where
  name : String
  columns : List String
  is_unique : Bool
  index_type : Option String
  column_prefixes : Option (List (Option Nat))
deriving DecidableEq, Repr

/-- Source: `ForgeSchemaForeignKey` from `src/core.rs`. -/
structure ForgeForeignKey where
  name : String
  column : String
  ref_table : String
  ref_column : String
  on_delete : Option String
  on_update : Option String
deriving DecidableEq, Repr

/-- Source: `ForgeSchemaTable` from `src/core.rs` (a.k.a. `ForgeTable`). -/
structure ForgeTable where
  name : String
  columns : List ForgeColumn
  indices : List ForgeIndex
  foreign_keys : List ForgeForeignKey
  comment : Option String
deriving DecidableEq, Repr

/-- Source: `ForgeSchemaTable::new`: a named table with everything else empty. -/
def ForgeTable.new (name : String) : ForgeTable :=
  { name := name, columns := [], indices := [], foreign_keys := [], comment := none }

/-- Source: `ForgeSchemaMetadata` from `src/core.rs`. -/
structure ForgeSchemaMetadata where
  source_system : String
  source_database_name : String
  created_at : String
  forge_version : String
  config_file : String
deriving DecidableEq, Repr

/-- Source: `ForgeSchema` from `src/core.rs`. -/
structure ForgeSchema where
  metadata : ForgeSchemaMetadata
  tables : List ForgeTable
deriving DecidableEq, Repr

/-- A data row: `indexmap::IndexMap<String, ForgeUniversalValue>`, modelled
as its entry list (keys unique by `IndexMap`'s contract; only lookup is
performed on it by the embedded code). -/
abbrev Row := List (String × ForgeUniversalValue)

/-- Source: `IndexMap::get`: the value stored under a key. -/
def rowGet (row : Row) (key : String) : Option ForgeUniversalValue :=
  (row.find? (fun p => p.1 = key)).map (·.2)

/-- Source: `rows_equal` from `src/ops.rs` (lines 64–80).  A missing column falls
back to `Null` on either side; the error payload `(column, expected, got)`
models the contents of the formatted mismatch message. -/
def rows_equal (columns : List String) (source_row target_row : Row) :
    Except (String × ForgeUniversalValue × ForgeUniversalValue) Unit :=
  match columns with
  | [] => .ok ()
  | c :: rest =>
    let source_value := (rowGet source_row c).getD .Null
    let target_value := (rowGet target_row c).getD .Null
    if values_equal source_value target_value then
      rows_equal rest source_row target_row
    else
      .error (c, source_value, target_value)

/-- Source: `order_by_columns` from `src/ops.rs` (lines 18–31). -/
def order_by_columns (table : ForgeTable) : List String :=
  let primary_keys := (table.columns.filter (·.is_primary_key)).map (·.name)
  if primary_keys.isEmpty then
    table.columns.map (·.name)
  else
    primary_keys

/-- The two ways `verify_table_data` fails: a value mismatch
(`"Verification failed for table `t`: Mismatch in column `c`: ..."`) or a
row-count mismatch (`"Verification failed for table `t`: row count
mismatch"`). -/
inductive VerifyError where
  | mismatch (table column : String)
      (expected got : ForgeUniversalValue) : VerifyError
  | rowCountMismatch (table : String) : VerifyError
deriving DecidableEq, Repr

/-- The lock-step loop of `verify_table_data` (`src/ops.rs` lines
111–137): both streams are advanced together; simultaneous end succeeds,
a mismatching pair reports the table and column, a one-sided end reports a
row-count mismatch. -/
def verifyLoop (table_name : String) (column_names : List String) :
    List Row → List Row → Except VerifyError Unit
  | [], [] => .ok ()
  | source_row :: srest, target_row :: trest =>
    match rows_equal column_names source_row target_row with
    | .error (c, sv, tv) => .error (.mismatch table_name c sv tv)
    | .ok () => verifyLoop table_name column_names srest trest
  | _, _ => .error (.rowCountMismatch table_name)

/-- Source: `verify_table_data` from `src/ops.rs` (lines 82–142) on the row
sequences produced by the two ordered streams (the streams themselves are
effectful; their yielded rows are the lists here).  `column_names` is all
of the table's columns, exactly as in the source. -/
def verify_table_data (table : ForgeTable) (source_rows target_rows : List Row) :
    Except VerifyError Unit :=
  verifyLoop table.name (table.columns.map (·.name)) source_rows target_rows

/-- The per-table chunking loop of `replicate_data` (`src/ops.rs` lines
219–243): rows are pushed into a buffer; once `chunk.len() >= limit` the
buffer is handed to `insert_chunk` and a fresh buffer allocated; at
end-of-stream a non-empty residual buffer is flushed.  The result is the
list of chunks passed to `insert_chunk`, in call order.  The source fixes
`limit` to `1000` (`replicateTableChunks`). -/
def insertChunksLoop (limit : Nat) : List Row → List Row → List (List Row)
  | [], chunk => if chunk.isEmpty then [] else [chunk]
  | row :: rest, chunk =>
    let chunk' := chunk ++ [row]
    if limit ≤ chunk'.length then
      chunk' :: insertChunksLoop limit rest []
    else
      insertChunksLoop limit rest chunk'

/-- The chunk sequence `replicate_data` sends to `insert_chunk` for one
table whose source stream yields `rows` without error. -/
def replicateTableChunks (rows : List Row) : List (List Row) :=
  insertChunksLoop 1000 rows []

/-- Outcome of one `insert_chunk` call: the returned `Result`, the rows
retried individually after a batch failure (in order), and the
`(row, error)` pairs written to the append-only error log. -/
structure InsertChunkOutcome (ε : Type) where
  result : Except ε Unit
  retried : List Row
  logged : List (Row × ε)
deriving Repr

/-- Source: `MySqlDriver::insert_chunk` from `src/drivers/mysql.rs` (lines
1108–1196), with the database modelled as an oracle: `batch_error` is the
outcome of the multi-row `INSERT`, `row_error` the outcome of each
single-row retry.  An empty chunk returns `Ok` at once; in `dry_run` the
SQL is only printed; on batch failure every row of the chunk is retried
individually, each failing row is logged, and the original batch error is
returned iff `halt_on_error`. -/
def mysql_insert_chunk {ε : Type} (batch_error : Option ε)
    (row_error : Row → Option ε) (dry_run halt_on_error : Bool)
    (chunk : List Row) : InsertChunkOutcome ε :=
  if chunk.isEmpty then
    { result := .ok (), retried := [], logged := [] }
  else if dry_run then
    { result := .ok (), retried := [], logged := [] }
  else
    match batch_error with
    | none => { result := .ok (), retried := [], logged := [] }
    | some e =>
      { result := if halt_on_error then .error e else .ok ()
        retried := chunk
        logged := chunk.filterMap (fun row => (row_error row).map (fun re => (row, re))) }

/-- Source: `PostgresDriver::insert_chunk` from `src/drivers/postgres.rs` (lines
764–870), same oracle.  Unlike MySQL, a batch failure with
`halt_on_error` set returns the error immediately — no per-row retry, no
logging; only with `halt_on_error` unset are the rows retried and logged,
and the call then returns `Ok`. -/
def postgres_insert_chunk {ε : Type} (batch_error : Option ε)
    (row_error : Row → Option ε) (dry_run halt_on_error : Bool)
    (chunk : List Row) : InsertChunkOutcome ε :=
  if chunk.isEmpty then
    { result := .ok (), retried := [], logged := [] }
  else if dry_run then
    { result := .ok (), retried := [], logged := [] }
  else
    match batch_error with
    | none => { result := .ok (), retried := [], logged := [] }
    | some e =>
      if halt_on_error then
        { result := .error e, retried := [], logged := [] }
      else
        { result := .ok ()
          retried := chunk
          logged := chunk.filterMap (fun row => (row_error row).map (fun re => (row, re))) }

/-! ## Dependency sorter (`sort_tables_by_dependencies`, `src/ops.rs` 285–328)

The source builds a `petgraph::DiGraph` with one node per table (in table
order, so node indices are list positions) and a `HashMap` from table name
to node index (`HashMap::insert` makes the **last** insertion win on
duplicate names), adds an edge `ref_table → table` for every foreign key
whose referenced table is in the map, and runs `petgraph::algo::toposort`,
whose contract is: `Ok(order)` respecting every edge when the graph is
acyclic, `Err(Cycle)` exactly when it is cyclic.  `toposortModel` below is
an executable model of that contract (Kahn's algorithm), proved sound and
complete here, so every theorem depends only on the contract and not on
petgraph's internal traversal order. -/

/-- Lookup in the `HashMap<&str, NodeIndex>` built by repeated
`insert` — the last binding of a key wins. -/
def lookupLast (assoc : List (String × Nat)) (key : String) : Option Nat :=
  match assoc with
  | [] => none
  | (k, v) :: rest =>
    match lookupLast rest key with
    | some r => some r
    | none => if k = key then some v else none

/-- The `nodes` map of `sort_tables_by_dependencies`: each table's name
bound to its node index (= its position, nodes being added in order). -/
def nodesAssocAux (i : Nat) : List ForgeTable → List (String × Nat)
  | [] => []
  | t :: rest => (t.name, i) :: nodesAssocAux (i + 1) rest

def nodesAssoc (tables : List ForgeTable) : List (String × Nat) :=
  nodesAssocAux 0 tables

/-- The `table_map : HashMap<&str, &ForgeTable>` collected from the table
list — again last binding wins. -/
def tableMapLookup (tables : List ForgeTable) (key : String) : Option ForgeTable :=
  match tables with
  | [] => none
  | t :: rest =>
    match tableMapLookup rest key with
    | some r => some r
    | none => if t.name = key then some t else none

/-- Edge construction of `sort_tables_by_dependencies`: for every table
(in order) and every of its foreign keys (in order), if `fk.ref_table` is
in the node map, add the edge `(ref_table's node, table's node)`.  The
`ok_or_else` failure of the source (`"Table … not found in nodes"`) is
kept, although it cannot fire when `assoc` covers all tables. -/
def buildEdges (assoc : List (String × Nat)) :
    List ForgeTable → Except String (List (Nat × Nat))
  | [] => .ok []
  | t :: rest =>
    match lookupLast assoc t.name with
    | none => .error ("Table " ++ t.name ++ " not found in nodes")
    | some from_idx =>
      (buildEdges assoc rest).map (fun es =>
        (t.foreign_keys.filterMap (fun fk =>
          (lookupLast assoc fk.ref_table).map (fun to_idx => (to_idx, from_idx)))) ++ es)

/-- Source: `pathB edges k u v`: there is a directed walk of exactly `k` edges
from `u` to `v`. -/
def pathB (edges : List (Nat × Nat)) : Nat → Nat → Nat → Bool
  | 0, u, v => u == v
  | k + 1, u, v => edges.any (fun e => e.1 == u && pathB edges k e.2 v)

/-- The graph on nodes `0..n` with the given edges has a directed cycle
(equivalently: some node lies on a closed walk of length `1..n`). -/
def hasCycleB (n : Nat) (edges : List (Nat × Nat)) : Bool :=
  (List.range n).any (fun u => (List.range n).any (fun k => pathB edges (k + 1) u u))

/-- One step of Kahn's algorithm: the first remaining node with no
incoming edge from a remaining node. -/
def selectSource (remaining : List Nat) (edges : List (Nat × Nat)) : Option Nat :=
  remaining.find? (fun u => !(edges.any (fun e => e.2 == u && remaining.contains e.1)))

/-- Kahn's algorithm with explicit fuel (`fuel ≥ remaining.length`
suffices): repeatedly removes a source node; fails iff it gets stuck on a
non-empty remainder. -/
def kahnAux (edges : List (Nat × Nat)) : Nat → List Nat → Option (List Nat)
  | 0, remaining => if remaining.isEmpty then some [] else none
  | fuel + 1, remaining =>
    if remaining.isEmpty then some [] else
    match selectSource remaining edges with
    | none => none
    | some u => (kahnAux edges fuel (remaining.erase u)).map (fun l => u :: l)

/-- Model of `petgraph::algo::toposort` on the graph with nodes `0..n`:
`some order` iff the graph is acyclic. -/
def toposortModel (n : Nat) (edges : List (Nat × Nat)) : Option (List Nat) :=
  kahnAux edges n (List.range n)

/-- Source: `sort_tables_by_dependencies` from `src/ops.rs` (lines 285–328):
build the graph, topologically sort it, translate sorted node indices
back to tables (`graph[idx]` is the name of node `idx`, i.e. the name of
the table at position `idx`; the `if let Some(table) = table_map.get(..)`
is the `Option.bind`/`filterMap`), or fail with the circular-dependency
message. -/
def sort_tables_by_dependencies (schema : ForgeSchema) :
    Except String (List ForgeTable) :=
  let tables := schema.tables
  let assoc := nodesAssoc tables
  match buildEdges assoc tables with
  | .error e => .error e
  | .ok edges =>
    match toposortModel tables.length edges with
    | some sorted_indices =>
      .ok (sorted_indices.filterMap (fun idx =>
        (tables[idx]?).bind (fun t => tableMapLookup tables t.name)))
    | none =>
      .error "Circular dependency detected! Die Tabellen hängen im Kreis voneinander ab."

/-- The foreign-key edge list of a schema, exactly as
`sort_tables_by_dependencies` constructs it (`buildEdges` cannot fail
since every table's own name is in the node map; the error arm is
unreachable). -/
def schemaEdges (schema : ForgeSchema) : List (Nat × Nat) :=
  match buildEdges (nodesAssoc schema.tables) schema.tables with
  | .ok es => es
  | .error _ => []

/-! ## Configuration (`src/core.rs`) -/

/-- Source: `ForgeRuleGeneralConfig`. -/
structure ForgeRuleGeneralConfig where
  unsigned_int_to_bigint : Option Bool
  zero_date : Option Bool
deriving DecidableEq, Repr

/-- Source: `ForgeRulesDirectionConfig`. -/
structure ForgeRulesDirectionConfig where
  on_read : Option ForgeRuleGeneralConfig
  on_write : Option ForgeRuleGeneralConfig
deriving DecidableEq, Repr

/-- Source: `ForgeTypeDirectionConfig`; the `HashMap<String, String>` is its
entry list (keys unique; only `get` is performed). -/
structure ForgeTypeDirectionConfig where
  on_read : Option (List (String × String))
  on_write : Option (List (String × String))
deriving DecidableEq, Repr

/-- Source: `ForgeDbConfig`. -/
structure ForgeDbConfig where
  types : Option ForgeTypeDirectionConfig
  rules : Option ForgeRulesDirectionConfig
deriving DecidableEq, Repr

/-- Source: `ForgeGeneralConfig`. -/
structure ForgeGeneralConfig where
  on_missing_type : Option String
  default_charset : Option String
  verify_after_write : Option Bool
deriving DecidableEq, Repr

/-- Source: `ForgeRulesConfig`. -/
structure ForgeRulesConfig where
  rules : Option ForgeRulesDirectionConfig
deriving DecidableEq, Repr

/-- Source: `ForgeConfig` (the `tables` section holds no behaviour used by the
embedded functions and is omitted). -/
structure ForgeConfig where
  general : Option ForgeGeneralConfig
  mysql : Option ForgeDbConfig
  postgres : Option ForgeDbConfig
  rules : Option ForgeRulesConfig
deriving DecidableEq, Repr

/-- Source: `ForgeConfig::default()`. -/
def ForgeConfig.default : ForgeConfig :=
  { general := none, mysql := none, postgres := none, rules := none }

/-- Source: `HashMap::get` on a string map. -/
def hashMapGet (m : List (String × String)) (key : String) : Option String :=
  (m.find? (fun p => p.1 = key)).map (·.2)

/-- Source: `ForgeConfig::get_type_list` from `src/core.rs` (lines 65–86). -/
def ForgeConfig.get_type_list (config : ForgeConfig) (db_name direction : String) :
    Option (List (String × String)) := do
  let db_cfg ←
    match db_name with
    | "mysql" => config.mysql
    | "postgres" => config.postgres
    | _ => none
  let types ← db_cfg.types
  match direction with
  | "on_read" => types.on_read
  | "on_write" => types.on_write
  | _ => none

/-! ## MySQL DDL generation (`src/drivers/mysql.rs`) -/

/-- Rust `str::to_lowercase` / `eq_ignore_ascii_case`, modelled on the
ASCII range (the only case distinction the embedded code makes): map
`A`-`Z` to `a`-`z`. -/
def asciiLowerChar (c : Char) : Char :=
  if 'A' ≤ c && c ≤ 'Z' then Char.ofNat (c.toNat + 32) else c

/-- Lower-casing of a whole string, character by character. -/
def toLowerModel (s : String) : String := ⟨s.data.map asciiLowerChar⟩

/-- Source: `str::contains` (substring containment) on strings. -/
def containsSubstr (s pat : String) : Bool :=
  (List.range (s.length + 1)).any
    (fun i => (s.toList.drop i).take pat.toList.length == pat.toList)

/-- Source: `MySqlDriver::field_migration_sql` from `src/drivers/mysql.rs` (lines
362–446): render one column definition.  `eq_ignore_ascii_case` /
`to_lowercase` are modelled by `toLowerModel` (identical on ASCII). -/
def mysql_field_migration_sql (field : ForgeColumn) (config : ForgeConfig) : String :=
  let target_types := config.get_type_list "mysql" "on_write"
  let data_type_lower := toLowerModel field.data_type
  let sql_type := ((target_types.bind (fun t => hashMapGet t data_type_lower)).getD
    data_type_lower)
  let ret := "`" ++ field.name ++ "`" ++ " " ++ sql_type
  let ret := ret ++
    (match sql_type with
     | "decimal" =>
       match field.precision, field.scale with
       | some p, some s => "(" ++ toString p ++ "," ++ toString s ++ ")"
       | some p, none => "(" ++ toString p ++ ")"
       | _, _ => ""
     | "tinyint" | "smallint" | "mediumint" | "int" | "integer" | "bigint" =>
       if field.is_unsigned then " unsigned" else ""
     | "varchar" | "char" | "binary" | "varbinary" | "bit" | "datetime"
     | "timestamp" | "time" =>
       match field.length with
       | some l => "(" ++ toString l ++ ")"
       | none => ""
     | "enum" | "set" =>
       match field.enum_values with
       | some vals =>
         "(" ++ String.intercalate "," (vals.map (fun v => "'" ++ v ++ "'")) ++ ")"
       | none => ""
     | _ => "")
  let sql_type_lower := toLowerModel sql_type
  let skip_default := containsSubstr sql_type_lower "text"
    || containsSubstr sql_type_lower "blob" || sql_type_lower == "json"
  let ret := ret ++
    (if field.is_nullable then
      " NULL" ++ (if field.default.isNone && !skip_default then " DEFAULT NULL" else "")
    else " NOT NULL")
  let ret := ret ++
    (match field.default with
     | some dflt =>
       if !skip_default then
         if toLowerModel dflt == "current_timestamp" then " DEFAULT CURRENT_TIMESTAMP"
         else " DEFAULT '" ++ dflt ++ "'"
       else ""
     | none => "")
  let ret := ret ++ (if field.auto_increment then " AUTO_INCREMENT" else "")
  let ret := ret ++
    (match field.on_update with
     | some on_upd => " ON UPDATE " ++ on_upd
     | none => "")
  ret

/-- Rust `Option<f64> == Option<f64>` (IEEE equality on the payload). -/
def optionF64Beq : Option F64 → Option F64 → Bool
  | none, none => true
  | some a, some b => F64.beq a b
  | _, _ => false

/-- Source: `MySqlDriver::modify_column_migration` from `src/drivers/mysql.rs`
(lines 611–645).  `parseF64` stands for `str::parse::<f64>` (an
external-library function; every theorem below holds for every parse
function).  A statement is produced only when data type, length,
nullability or the default differ — with the float-aware default
comparison when the desired type is `float`. -/
def mysql_modify_column_migration (parseF64 : String → Option F64)
    (table_name : String) (src_col dst_col : ForgeColumn)
    (config : ForgeConfig) (_destructive : Bool) : String :=
  let changed := src_col.data_type != dst_col.data_type
    || src_col.length != dst_col.length
    || src_col.is_nullable != dst_col.is_nullable
  let changed :=
    if !changed then
      if toLowerModel src_col.data_type == "float" then
        let src_def_f := src_col.default.bind parseF64
        let dst_def_f := dst_col.default.bind parseF64
        !optionF64Beq src_def_f dst_def_f
      else
        src_col.default != dst_col.default
    else changed
  if changed then
    "ALTER TABLE `" ++ table_name ++ "` MODIFY COLUMN "
      ++ mysql_field_migration_sql src_col config ++ ";"
  else ""

/-! ## PostgreSQL DDL generation (`src/drivers/postgres.rs`) -/

/-- Source: `PostgresDriver::map_to_postgres_write_type` (lines 233–242). -/
def map_to_postgres_write_type (internal_type : String) (config : ForgeConfig) : String :=
  let lower := toLowerModel internal_type
  match config.get_type_list "postgres" "on_write" with
  | some write_types =>
    match hashMapGet write_types lower with
    | some mapped => mapped
    | none => lower
  | none => lower

/-- Source: `PostgresDriver::field_migration_sql` (lines 245–292). -/
def postgres_field_migration_sql (field : ForgeColumn) (config : ForgeConfig) : String :=
  let pg_type := map_to_postgres_write_type field.data_type config
  let t := toLowerModel pg_type
  let type_sql :=
    if field.auto_increment then
      match t with
      | "integer" => "integer GENERATED BY DEFAULT AS IDENTITY"
      | "bigint" => "bigint GENERATED BY DEFAULT AS IDENTITY"
      | "smallint" => "smallint GENERATED BY DEFAULT AS IDENTITY"
      | _ => pg_type ++ " GENERATED BY DEFAULT AS IDENTITY"
    else pg_type
  let sql := field.name ++ " " ++ type_sql
  let sql := sql ++
    (if !field.auto_increment then
      if t == "character varying" || t == "varchar" || t == "character" || t == "char" then
        match field.length with
        | some len => "(" ++ toString len ++ ")"
        | none => ""
      else if t == "numeric" || t == "decimal" then
        match field.precision, field.scale with
        | some p, some s => "(" ++ toString p ++ "," ++ toString s ++ ")"
        | _, _ => ""
      else ""
    else "")
  let sql := sql ++ (if !field.is_nullable then " NOT NULL" else "")
  let sql := sql ++
    (if !field.auto_increment then
      match field.default with
      | some dflt => " DEFAULT " ++ dflt
      | none => ""
    else "")
  sql

/-- Source: `PostgresDriver::build_postgres_create_index_sql` (lines 422–431). -/
def postgres_create_index_sql (table_name : String) (index : ForgeIndex) : String :=
  let unique := if index.is_unique then "UNIQUE " else ""
  "CREATE " ++ unique ++ "INDEX " ++ index.name ++ " ON " ++ table_name
    ++ " (" ++ String.intercalate ", " index.columns ++ ")"

/-- Lookup in a `HashMap<String, &ForgeColumn>` built by repeated
`insert` over a column list — last binding of a name wins. -/
def colMapLookup (cols : List ForgeColumn) (key : String) : Option ForgeColumn :=
  match cols with
  | [] => none
  | c :: rest =>
    match colMapLookup rest key with
    | some r => some r
    | none => if c.name = key then some c else none

/-- Loop body of the column pass of
`PostgresDriver::alter_table_migration_sql` (lines 354–379) for a column
present on both sides: emit the combined `ALTER COLUMN … TYPE …, ALTER
COLUMN … {DROP|SET} NULL` statement iff data type or nullability
differ. -/
def postgres_alter_column_statement (source_table_name : String)
    (source_col target_col : ForgeColumn) : List String :=
  if source_col.data_type != target_col.data_type
      || source_col.is_nullable != target_col.is_nullable then
    ["ALTER TABLE " ++ source_table_name ++ " ALTER COLUMN " ++ source_col.name
      ++ " TYPE " ++ source_col.data_type ++ ", ALTER COLUMN " ++ source_col.name
      ++ " " ++ (if source_col.is_nullable then "DROP" else "SET") ++ " NULL"]
  else []

/-- Source: `PostgresDriver::alter_table_migration_sql` (lines 334–419): column
add/modify pass, destructive column drops, index creates, destructive
index drops — in source order. -/
def postgres_alter_table_migration_sql (source_table target_table : ForgeTable)
    (config : ForgeConfig) (destructive : Bool) : List String :=
  let colStmts := source_table.columns.flatMap (fun source_col =>
    match colMapLookup target_table.columns source_col.name with
    | some target_col =>
      postgres_alter_column_statement source_table.name source_col target_col
    | none =>
      ["ALTER TABLE " ++ source_table.name ++ " ADD COLUMN "
        ++ postgres_field_migration_sql source_col config])
  let dropStmts :=
    if destructive then
      (target_table.columns.filter (fun target_col =>
        !(source_table.columns.any (fun c => c.name == target_col.name)))).map
        (fun target_col =>
          "ALTER TABLE " ++ source_table.name ++ " DROP COLUMN " ++ target_col.name)
    else []
  let idxCreates :=
    (source_table.indices.filter (fun source_idx =>
      !(target_table.indices.any (fun ti => ti.name == source_idx.name)))).map
      (fun source_idx => postgres_create_index_sql source_table.name source_idx)
  let idxDrops :=
    if destructive then
      (target_table.indices.filter (fun target_idx =>
        !(source_table.indices.any (fun si => si.name == target_idx.name)))).map
        (fun target_idx => "DROP INDEX IF EXISTS " ++ target_idx.name)
    else []
  colStmts ++ dropStmts ++ idxCreates ++ idxDrops

/-! ## Orchestrator: the `Replicate` branch (`src/business.rs` 118–167)
and the driver factory (`src/drivers/mod.rs` 63–119) -/

/-- Observable effects of the `Replicate` command, in program order. -/
inductive ReplEffect where
  | loadConfig
  | connectMySql (url : String)
  | connectPostgres (url : String)
  | checkTargetEmpty
deriving DecidableEq, Repr

/-- Rust `str::starts_with`, on the character list. -/
def strStartsWith (s pre : String) : Bool :=
  s.data.take pre.data.length == pre.data

/-- Source: `create_driver` from `src/drivers/mod.rs`: URL-scheme dispatch.  A
`mysql://` URL leads to a MySQL pool connection (in both the plain and
the `sql_mode` branch), a `postgres://`/`postgresql://` URL to a
PostgreSQL pool connection, anything else is an error **before** any
connection attempt. -/
def create_driver_effects (url : String) : Except String (List ReplEffect) :=
  if strStartsWith url "mysql://" then
    .ok [.connectMySql url]
  else if strStartsWith url "postgres://" || strStartsWith url "postgresql://" then
    .ok [.connectPostgres url]
  else
    .error ("Unsupported database protocol in URL: " ++ url)

/-- The prefix of the `Replicate` branch of `handle_command`
(`src/business.rs` lines 118–167) up to and including source-driver
creation: load the configuration, create the **target** driver (a
connection attempt), refuse a non-empty target, then create the source
driver.  Schema fetch / sort / create / data migration follow and are
beyond this decision prefix.  Returns the effect trace and the rejection
raised within the prefix, if any. -/
def replicate_command_start (source target : String) (target_empty : Bool) :
    List ReplEffect × Option String :=
  match create_driver_effects target with
  | .error e => ([.loadConfig], some e)
  | .ok target_fx =>
    if !target_empty then
      ([.loadConfig] ++ target_fx ++ [.checkTargetEmpty],
       some "ABBRUCH: Die Zieldatenbank enthält bereits Daten.")
    else
      match create_driver_effects source with
      | .error e => ([.loadConfig] ++ target_fx ++ [.checkTargetEmpty], some e)
      | .ok source_fx =>
        ([.loadConfig] ++ target_fx ++ [.checkTargetEmpty] ++ source_fx, none)

/-- Is an effect a connection attempt to a database? -/
def ReplEffect.isConnect : ReplEffect → Bool
  | .connectMySql _ => true
  | .connectPostgres _ => true
  | _ => false

/-! ## Theorems -/

theorem beq_symm_dec {α : Type} [DecidableEq α] (a b : α) : (a == b) = (b == a) := by
  by_cases h : a = b
  · subst h; rfl
  · simp [h, Ne.symm h]

theorem F64.beq_symm (a b : F64) : F64.beq a b = F64.beq b a := by
  cases a <;> cases b <;> simp [F64.beq, eq_comm]

/-- Claim C10: The verifier's value-equality predicate is symmetric; it is
not reflexive on `Float(NaN)`. -/
theorem values_equal_symmetric :
    (∀ a b, values_equal a b = values_equal b a) ∧
      values_equal (.Float .nan) (.Float .nan) = false := by
  refine ⟨fun a b => ?_, rfl⟩
  cases a <;> cases b <;> simp [values_equal, F64.beq_symm, eq_comm] <;>
    rw [beq_symm_dec]

/-- The equality predicate as claim C4 words it: `Null`/`ZeroDateTime` in
any combination; the signed/unsigned integer bridge for non-negative
numerically equal values; the `Year`/`Integer` bridge; otherwise the same
variant with exactly equal payloads. -/
def SpecValuesEqualOriginal (a b : ForgeUniversalValue) : Prop :=
  ((a = .Null ∨ a = .ZeroDateTime) ∧ (b = .Null ∨ b = .ZeroDateTime))
  ∨ (∃ x y, ((a = .Integer x ∧ b = .UnsignedInteger y)
      ∨ (b = .Integer x ∧ a = .UnsignedInteger y)) ∧ 0 ≤ x ∧ x = (y : Int))
  ∨ (∃ x y, ((a = .Year x ∧ b = .Integer y)
      ∨ (b = .Year x ∧ a = .Integer y)) ∧ x = y)
  ∨ a = b

/-- Claim C4 amended at the `Float` variant: same-variant `Float` values
compare by IEEE-754 equality (`NaN` unequal to everything, itself
included) rather than by payload identity; all other same-variant pairs
compare by payload equality. -/
def SpecValuesEqualAmended (a b : ForgeUniversalValue) : Prop :=
  ((a = .Null ∨ a = .ZeroDateTime) ∧ (b = .Null ∨ b = .ZeroDateTime))
  ∨ (∃ x y, ((a = .Integer x ∧ b = .UnsignedInteger y)
      ∨ (b = .Integer x ∧ a = .UnsignedInteger y)) ∧ 0 ≤ x ∧ x = (y : Int))
  ∨ (∃ x y, ((a = .Year x ∧ b = .Integer y)
      ∨ (b = .Year x ∧ a = .Integer y)) ∧ x = y)
  ∨ (∃ x y, a = .Float x ∧ b = .Float y ∧ F64.beq x y = true)
  ∨ (a = b ∧ ∀ x, a ≠ .Float x)

/-- Counterexample for claim C4: At `a = b = Float(NaN)` the claim's
characterisation (same variant, exactly equal payloads ⇒ equal) fails:
`values_equal` is `false` there. -/
theorem values_equal_claim_counterexample :
    ¬ (values_equal (.Float .nan) (.Float .nan) = true ↔
        SpecValuesEqualOriginal (.Float .nan) (.Float .nan)) := by
  intro h
  have : SpecValuesEqualOriginal (.Float .nan) (.Float .nan) := Or.inr (Or.inr (Or.inr rfl))
  have hfalse : values_equal (.Float .nan) (.Float .nan) = true := h.mpr this
  simp [values_equal, F64.beq] at hfalse

/-- Claim C4 (amended): `values_equal` holds exactly under the claim's
characterisation with the `Float` clause read as IEEE equality. -/
theorem values_equal_spec (a b : ForgeUniversalValue) :
    values_equal a b = true ↔ SpecValuesEqualAmended a b := by
  cases a <;> cases b <;>
    simp [values_equal, SpecValuesEqualAmended] <;>
    first
      | omega
      | (constructor
         · rintro ⟨h1, h2⟩
           exact ⟨_, _, ⟨rfl, rfl⟩, by omega, by omega⟩
         · rintro ⟨x, y, ⟨rfl, rfl⟩, h1, h2⟩
           omega)

/-- A paired row comparison that succeeds under `rows_equal`. -/
abbrev RowsOk (columns : List String) (s t : Row) : Prop :=
  rows_equal columns s t = .ok ()

theorem rows_equal_ok_iff (columns : List String) (src tgt : Row) :
    rows_equal columns src tgt = .ok () ↔
      ∀ c ∈ columns,
        values_equal ((rowGet src c).getD .Null) ((rowGet tgt c).getD .Null) = true := by
  induction columns with
  | nil => simp [rows_equal]
  | cons c rest ih =>
    by_cases h :
        values_equal ((rowGet src c).getD .Null) ((rowGet tgt c).getD .Null) = true
    · simp [rows_equal, h, ih]
    · simp [rows_equal, h]

/-- Claim C9: The row comparison substitutes `Null` for a column name
absent from either row: comparison succeeds exactly when, for every
listed column, the two values-with-`Null`-default are `values_equal`;
hence a row lacking a column compares equal at it to a row carrying
`Null` or `ZeroDateTime` there (or also lacking it), in either order. -/
theorem rows_equal_missing_column_null :
    (∀ (columns : List String) (src tgt : Row),
      rows_equal columns src tgt = .ok () ↔
        ∀ c ∈ columns,
          values_equal ((rowGet src c).getD .Null) ((rowGet tgt c).getD .Null) = true)
    ∧ (∀ (c : String) (src tgt : Row), rowGet src c = none →
        rowGet tgt c = none ∨ rowGet tgt c = some .Null ∨
          rowGet tgt c = some .ZeroDateTime →
        rows_equal [c] src tgt = .ok () ∧ rows_equal [c] tgt src = .ok ()) := by
  refine ⟨rows_equal_ok_iff, fun c src tgt hsrc htgt => ?_⟩
  rcases htgt with h | h | h <;> simp [rows_equal, hsrc, h, values_equal]

/-- Witness for claim C9: Concrete rows: `src` lacks column `"a"`, `tgt` holds
`ZeroDateTime` there. -/
theorem rows_equal_missing_column_null_witness :
    rows_equal ["a"] [("b", .Integer 1)] [("a", .ZeroDateTime)] = .ok () ∧
      rows_equal ["a"] [("a", .ZeroDateTime)] [("b", .Integer 1)] = .ok () :=
  rows_equal_missing_column_null.2 "a" [("b", .Integer 1)] [("a", .ZeroDateTime)]
    (by decide) (by decide)

theorem verifyLoop_ok_iff (name : String) (cols : List String)
    (src tgt : List Row) :
    verifyLoop name cols src tgt = .ok () ↔ List.Forall₂ (RowsOk cols) src tgt := by
  induction src generalizing tgt with
  | nil =>
    cases tgt with
    | nil => simp [verifyLoop]
    | cons t ts => simp [verifyLoop]
  | cons s ss ih =>
    cases tgt with
    | nil => simp [verifyLoop]
    | cons t ts =>
      simp only [verifyLoop]
      rcases hre : rows_equal cols s t with e | u
      · obtain ⟨c, sv, tv⟩ := e
        constructor
        · intro h; simp at h
        · intro hfa
          cases hfa with
          | cons hok hrest =>
            have hok' : rows_equal cols s t = Except.ok () := hok
            rw [hre] at hok'
            simp at hok'
      · cases u
        rw [List.forall₂_cons]
        constructor
        · intro h
          exact ⟨hre, (ih ts).mp h⟩
        · rintro ⟨-, h⟩
          exact (ih ts).mpr h

theorem verifyLoop_src_longer (name : String) (cols : List String)
    {src tgt : List Row} (h : List.Forall₂ (RowsOk cols) src tgt)
    {rest : List Row} (hrest : rest ≠ []) :
    verifyLoop name cols (src ++ rest) tgt = .error (.rowCountMismatch name) := by
  induction h with
  | nil =>
    cases rest with
    | nil => exact absurd rfl hrest
    | cons r rs => simp [verifyLoop]
  | @cons s t ss ts hok _ ih =>
    simp only [List.cons_append, verifyLoop]
    have hok' : rows_equal cols s t = Except.ok () := hok
    rw [hok']
    exact ih

theorem verifyLoop_tgt_longer (name : String) (cols : List String)
    {src tgt : List Row} (h : List.Forall₂ (RowsOk cols) src tgt)
    {rest : List Row} (hrest : rest ≠ []) :
    verifyLoop name cols src (tgt ++ rest) = .error (.rowCountMismatch name) := by
  induction h with
  | nil =>
    cases rest with
    | nil => exact absurd rfl hrest
    | cons r rs => simp [verifyLoop]
  | @cons s t ss ts hok _ ih =>
    simp only [List.cons_append, verifyLoop]
    have hok' : rows_equal cols s t = Except.ok () := hok
    rw [hok']
    exact ih

theorem verifyLoop_first_mismatch (name : String) (cols : List String)
    {src tgt : List Row} (h : List.Forall₂ (RowsOk cols) src tgt)
    {s t : Row} {srest trest : List Row} {c : String}
    {sv tv : ForgeUniversalValue}
    (hmis : rows_equal cols s t = .error (c, sv, tv)) :
    verifyLoop name cols (src ++ s :: srest) (tgt ++ t :: trest) =
      .error (.mismatch name c sv tv) := by
  induction h with
  | nil => simp [verifyLoop, hmis]
  | @cons s' t' ss ts hok _ ih =>
    simp only [List.cons_append, verifyLoop]
    have hok' : rows_equal cols s' t' = Except.ok () := hok
    rw [hok']
    exact ih

/-- Claim C5: The verifier orders by the primary-key columns when any
exist, else by all columns; on the streamed row lists it succeeds iff
both end together with all pairs `rows_equal` over the table's column
names; a strictly longer side yields the row-count-mismatch error; the
first mismatching pair yields an error naming the table and the
mismatching column (comparison stops there: whatever follows the
mismatch on either side does not affect the result). -/
theorem verify_table_data_spec (table : ForgeTable) :
    ((table.columns.filter (·.is_primary_key) ≠ [] →
        order_by_columns table = (table.columns.filter (·.is_primary_key)).map (·.name))
      ∧ (table.columns.filter (·.is_primary_key) = [] →
        order_by_columns table = table.columns.map (·.name)))
    ∧ (∀ src tgt : List Row,
        verify_table_data table src tgt = .ok () ↔
          List.Forall₂ (RowsOk (table.columns.map (·.name))) src tgt)
    ∧ (∀ src tgt rest : List Row,
        List.Forall₂ (RowsOk (table.columns.map (·.name))) src tgt → rest ≠ [] →
          verify_table_data table (src ++ rest) tgt =
              .error (.rowCountMismatch table.name)
            ∧ verify_table_data table src (tgt ++ rest) =
              .error (.rowCountMismatch table.name))
    ∧ (∀ (src tgt : List Row) (s t : Row) (srest trest : List Row)
        (c : String) (sv tv : ForgeUniversalValue),
        List.Forall₂ (RowsOk (table.columns.map (·.name))) src tgt →
        rows_equal (table.columns.map (·.name)) s t = .error (c, sv, tv) →
          verify_table_data table (src ++ s :: srest) (tgt ++ t :: trest) =
            .error (.mismatch table.name c sv tv)) := by
  refine ⟨⟨fun h => ?_, fun h => ?_⟩, fun src tgt => ?_, fun src tgt rest h hr => ?_,
    fun src tgt s t srest trest c sv tv h hmis => ?_⟩
  · simp [order_by_columns, h]
  · simp [order_by_columns, h]
  · exact verifyLoop_ok_iff table.name _ src tgt
  · exact ⟨verifyLoop_src_longer table.name _ h hr, verifyLoop_tgt_longer table.name _ h hr⟩
  · exact verifyLoop_first_mismatch table.name _ h hmis

/-- Witness for claim C5: A one-column table with a primary key: matching rows
verify, a surplus target row is a row-count mismatch, and a differing
value is reported as a mismatch in that column. -/
theorem verify_table_data_spec_witness :
    (let tbl : ForgeTable :=
      { ForgeTable.new "users" with
        columns := [{ ForgeColumn.new "id" "int" with is_primary_key := true }] }
     order_by_columns tbl = ["id"]
      ∧ verify_table_data tbl [[("id", .Integer 1)]] [[("id", .Integer 1)]] = .ok ()
      ∧ verify_table_data tbl [] [[("id", .Integer 1)]] =
          .error (.rowCountMismatch "users")
      ∧ verify_table_data tbl [[("id", .Integer 1)]] [[("id", .Integer 2)]] =
          .error (.mismatch "users" "id" (.Integer 1) (.Integer 2))) := by
  have h := verify_table_data_spec
    { ForgeTable.new "users" with
      columns := [{ ForgeColumn.new "id" "int" with is_primary_key := true }] }
  refine ⟨(h.1.1 (by decide)).trans rfl, ?_, ?_, ?_⟩
  · exact (h.2.1 _ _).mpr (List.Forall₂.cons rfl List.Forall₂.nil)
  · simpa using (h.2.2.1 [] [] [[("id", .Integer 1)]] List.Forall₂.nil (by decide)).2
  · simpa using h.2.2.2 [] [] [("id", .Integer 1)] [("id", .Integer 2)] [] []
      "id" (.Integer 1) (.Integer 2) List.Forall₂.nil rfl

theorem insertChunksLoop_flatten (limit : Nat) (rows : List Row) :
    ∀ chunk : List Row, (insertChunksLoop limit rows chunk).flatten = chunk ++ rows := by
  induction rows with
  | nil =>
    intro chunk
    by_cases h : chunk.isEmpty
    · simp [insertChunksLoop, h, List.isEmpty_iff.mp h]
    · simp [insertChunksLoop, h]
  | cons r rest ih =>
    intro chunk
    by_cases h : limit ≤ chunk.length + 1
    · simp [insertChunksLoop, h, ih]
    · simp [insertChunksLoop, h, ih (chunk ++ [r])]

theorem insertChunksLoop_length (limit : Nat) (h0 : 0 < limit) (rows : List Row) :
    ∀ chunk : List Row, chunk.length < limit →
      (insertChunksLoop limit rows chunk).length
        = (chunk.length + rows.length + limit - 1) / limit := by
  induction rows with
  | nil =>
    intro chunk hc
    by_cases h : chunk.isEmpty
    · have hz : chunk = [] := List.isEmpty_iff.mp h
      subst hz
      simp [insertChunksLoop]
      exact (Nat.div_eq_of_lt (by omega)).symm
    · have hne : chunk ≠ [] := by simpa [List.isEmpty_iff] using h
      have h1 : 1 ≤ chunk.length := by
        cases chunk with
        | nil => exact absurd rfl hne
        | cons a l => simp
      simp [insertChunksLoop, h]
      exact (Nat.div_eq_of_lt_le (by omega) (by omega)).symm
  | cons r rest ih =>
    intro chunk hc
    by_cases h : limit ≤ (chunk ++ [r]).length
    · have hlen : chunk.length + 1 = limit := by
        have := List.length_append chunk [r]
        simp at this
        simp [this] at h
        omega
      have ihz := ih [] (by simpa using h0)
      simp only [List.length_nil] at ihz
      simp only [insertChunksLoop, if_pos h, List.length_cons, ihz]
      rw [show chunk.length + (rest.length + 1) + limit - 1
          = (0 + rest.length + limit - 1) + limit by omega,
        Nat.add_div_right _ h0]
    · have hlt : (chunk ++ [r]).length < limit := by omega
      have ih' := ih (chunk ++ [r]) hlt
      simp only [insertChunksLoop, if_neg h, ih']
      congr 1
      simp
      omega

theorem insertChunksLoop_sizes (limit : Nat) (h0 : 0 < limit) (rows : List Row) :
    ∀ chunk : List Row, chunk.length < limit →
      ∀ c ∈ insertChunksLoop limit rows chunk, c.length ≤ limit := by
  induction rows with
  | nil =>
    intro chunk hc c hm
    by_cases h : chunk.isEmpty
    · simp [insertChunksLoop, h] at hm
    · simp [insertChunksLoop, h] at hm
      subst hm
      omega
  | cons r rest ih =>
    intro chunk hc c hm
    by_cases h : limit ≤ (chunk ++ [r]).length
    · simp only [insertChunksLoop, if_pos h] at hm
      rcases List.mem_cons.mp hm with rfl | hm'
      · simp
        omega
      · exact ih [] (by simpa using h0) c hm'
    · simp only [insertChunksLoop, if_neg h] at hm
      have hlt : (chunk ++ [r]).length < limit := by omega
      exact ih (chunk ++ [r]) hlt c hm

theorem insertChunksLoop_dropLast (limit : Nat) (h0 : 0 < limit) (rows : List Row) :
    ∀ chunk : List Row, chunk.length < limit →
      ∀ c ∈ (insertChunksLoop limit rows chunk).dropLast, c.length = limit := by
  induction rows with
  | nil =>
    intro chunk hc c hm
    by_cases h : chunk.isEmpty <;> simp [insertChunksLoop, h] at hm
  | cons r rest ih =>
    intro chunk hc c hm
    by_cases h : limit ≤ (chunk ++ [r]).length
    · have hlen : (chunk ++ [r]).length = limit := by
        simp at h ⊢
        omega
      simp only [insertChunksLoop, if_pos h] at hm
      rcases hrec : insertChunksLoop limit rest [] with _ | ⟨d, ds⟩
      · rw [hrec] at hm
        simp at hm
      · rw [hrec, List.dropLast_cons₂] at hm
        rcases List.mem_cons.mp hm with rfl | hm'
        · exact hlen
        · have hIH := ih [] (by simpa using h0) c
          rw [hrec] at hIH
          exact hIH hm'
    · simp only [insertChunksLoop, if_neg h] at hm
      have hlt : (chunk ++ [r]).length < limit := by omega
      exact ih (chunk ++ [r]) hlt c hm

/-- Claim C3: For a table whose stream yields the rows of `rows` without
error, `replicate_data` calls `insert_chunk` exactly `⌈n/1000⌉` times,
each call carrying at most 1000 rows, their concatenation being the
stream in order; `n = 1000` gives exactly one call with the whole stream
(no residual flush), `n = 1001` exactly two calls of 1000 and 1 rows. -/
theorem replicate_data_chunking (rows : List Row) :
    ((replicateTableChunks rows).length = (rows.length + 999) / 1000
      ∧ (replicateTableChunks rows).flatten = rows
      ∧ ∀ c ∈ replicateTableChunks rows, c.length ≤ 1000)
    ∧ (rows.length = 1000 → replicateTableChunks rows = [rows])
    ∧ (rows.length = 1001 →
        (replicateTableChunks rows).map List.length = [1000, 1]) := by
  have hflat := insertChunksLoop_flatten 1000 rows []
  have hlen := insertChunksLoop_length 1000 (by omega) rows [] (by simp)
  simp only [List.length_nil, List.nil_append] at hflat hlen
  refine ⟨⟨?_, hflat, ?_⟩, ?_, ?_⟩
  · rw [replicateTableChunks, hlen]
    congr 1
    omega
  · exact insertChunksLoop_sizes 1000 (by omega) rows [] (by simp)
  · intro h1000
    have hc : (replicateTableChunks rows).length = 1 := by
      rw [replicateTableChunks, hlen, h1000]
    obtain ⟨c, hc1⟩ := List.length_eq_one.mp hc
    rw [replicateTableChunks] at hc1
    have : (insertChunksLoop 1000 rows []).flatten = c := by rw [hc1]; simp
    rw [replicateTableChunks, hc1, ← hflat, this]
  · intro h1001
    have hc : (replicateTableChunks rows).length = 2 := by
      rw [replicateTableChunks, hlen, h1001]
    obtain ⟨c1, c2, hc2⟩ := List.length_eq_two.mp hc
    have hfirst : c1.length = 1000 := by
      have hd := insertChunksLoop_dropLast 1000 (by omega) rows [] (by simp) c1
      rw [← replicateTableChunks, hc2] at hd
      exact hd (by simp)
    have hsum : c1.length + c2.length = 1001 := by
      have : (replicateTableChunks rows).flatten = rows := hflat
      rw [hc2] at this
      have := congrArg List.length this
      simpa [h1001] using this
    rw [hc2]
    simp [hfirst]
    omega

/-- Witness for claim C3: Streams of exactly 1000 and 1001 rows. -/
theorem replicate_data_chunking_witness :
    (List.replicate 1000 ([] : Row)).length = 1000
    ∧ replicateTableChunks (List.replicate 1000 ([] : Row))
        = [List.replicate 1000 ([] : Row)]
    ∧ (List.replicate 1001 ([] : Row)).length = 1001
    ∧ (replicateTableChunks (List.replicate 1001 ([] : Row))).map List.length
        = [1000, 1] :=
  ⟨List.length_replicate 1000 [],
   (replicate_data_chunking (List.replicate 1000 [])).2.1 (List.length_replicate 1000 []),
   List.length_replicate 1001 [],
   (replicate_data_chunking (List.replicate 1001 [])).2.2 (List.length_replicate 1001 [])⟩

theorem logged_map_fst {ε : Type} (chunk : List Row) (row_error : Row → Option ε) :
    (chunk.filterMap (fun row => (row_error row).map (fun re => (row, re)))).map Prod.fst
      = chunk.filter (fun row => (row_error row).isSome) := by
  induction chunk with
  | nil => rfl
  | cons r rest ih =>
    rcases h : row_error r with _ | e <;> simp [h, ih]

theorem logged_pairs {ε : Type} (chunk : List Row) (row_error : Row → Option ε) :
    ∀ p ∈ chunk.filterMap (fun row => (row_error row).map (fun re => (row, re))),
      row_error p.1 = some p.2 := by
  induction chunk with
  | nil => simp
  | cons r rest ih =>
    intro p hp
    rcases h : row_error r with _ | e
    · rw [List.filterMap_cons, h] at hp
      exact ih p hp
    · rw [List.filterMap_cons, h] at hp
      rcases List.mem_cons.mp hp with rfl | hp'
      · exact h
      · exact ih p hp'

/-- Counterexample for claim C7: The PostgreSQL driver with `halt_on_error`
set returns the batch error **without** retrying any row individually:
on a failing one-row batch the retried list is empty, not the chunk. -/
theorem insert_chunk_claim_counterexample :
    ¬ (postgres_insert_chunk (some ("duplicate key" : String))
        (fun _ => some "duplicate key") false true [[("id", .Integer 1)]]).retried
        = [[("id", .Integer 1)]]
    ∧ (postgres_insert_chunk (some ("duplicate key" : String))
        (fun _ => some "duplicate key") false true [[("id", .Integer 1)]]).retried = []
    ∧ (postgres_insert_chunk (some ("duplicate key" : String))
        (fun _ => some "duplicate key") false true [[("id", .Integer 1)]]).logged = [] := by
  refine ⟨?_, rfl, rfl⟩
  intro h
  have h' : ([] : List Row) = [[("id", ForgeUniversalValue.Integer 1)]] := h
  simp at h'

/-- Claim C7 (amended): On a non-empty chunk whose batch insert fails with
`e` (and `dry_run` unset): the MySQL driver always retries every row of
the chunk individually, logs exactly the rows whose individual insert
fails (with their errors), and returns `Err(e)` iff `halt_on_error`; the
PostgreSQL driver behaves that way only when `halt_on_error` is unset
(then returning `Ok`), while with `halt_on_error` set it returns `Err(e)`
immediately with no per-row retry and no logging. -/
theorem insert_chunk_retry_spec (ε : Type) (e : ε) (row_error : Row → Option ε)
    (halt_on_error : Bool) (chunk : List Row) (hne : chunk ≠ []) :
    ((mysql_insert_chunk (some e) row_error false halt_on_error chunk).retried = chunk
      ∧ ((mysql_insert_chunk (some e) row_error false halt_on_error chunk).logged).map
          Prod.fst = chunk.filter (fun row => (row_error row).isSome)
      ∧ (∀ p ∈ (mysql_insert_chunk (some e) row_error false halt_on_error chunk).logged,
          row_error p.1 = some p.2)
      ∧ ((mysql_insert_chunk (some e) row_error false halt_on_error chunk).result
          = .error e ↔ halt_on_error = true))
    ∧ postgres_insert_chunk (some e) row_error false true chunk
        = { result := .error e, retried := [], logged := [] }
    ∧ postgres_insert_chunk (some e) row_error false false chunk
        = { result := .ok (), retried := chunk,
            logged := chunk.filterMap (fun row => (row_error row).map (fun re => (row, re))) } := by
  have hempty : chunk.isEmpty = false := by
    cases chunk with
    | nil => exact absurd rfl hne
    | cons c cs => rfl
  refine ⟨⟨?_, ?_, ?_, ?_⟩, ?_, ?_⟩
  · simp [mysql_insert_chunk, hempty]
  · simp only [mysql_insert_chunk, hempty, Bool.false_eq_true, if_false]
    exact logged_map_fst chunk row_error
  · simp only [mysql_insert_chunk, hempty, Bool.false_eq_true, if_false]
    exact logged_pairs chunk row_error
  · cases halt_on_error <;> simp [mysql_insert_chunk, hempty]
  · simp [postgres_insert_chunk, hempty]
  · simp [postgres_insert_chunk, hempty]

/-- Witness for claim C7: A concrete failing one-row batch. -/
theorem insert_chunk_retry_spec_witness :
    ([[("id", .Integer 1)]] : List Row) ≠ []
    ∧ (mysql_insert_chunk (some ("boom" : String)) (fun _ => some "boom")
        false false [[("id", .Integer 1)]]).retried = [[("id", .Integer 1)]]
    ∧ postgres_insert_chunk (some ("boom" : String)) (fun _ => some "boom")
        false true [[("id", .Integer 1)]]
        = { result := .error "boom", retried := [], logged := [] } := by
  have h := insert_chunk_retry_spec String "boom" (fun _ => some "boom") false
    [[("id", .Integer 1)]] (by simp)
  exact ⟨by simp, h.1.1, h.2.1⟩

/-- The material-difference predicate the MySQL alter-diff actually
implements: mapped data type, length, nullability, or default — the
default compared through `parse::<f64>` when the desired type is `float`
(case-insensitively), exactly otherwise.  Auto-increment and on-update
are **not** consulted. -/
def MysqlMaterialDiff (parseF64 : String → Option F64) (src_col dst_col : ForgeColumn) :
    Prop :=
  src_col.data_type ≠ dst_col.data_type
  ∨ src_col.length ≠ dst_col.length
  ∨ src_col.is_nullable ≠ dst_col.is_nullable
  ∨ (toLowerModel src_col.data_type = "float"
      ∧ optionF64Beq (src_col.default.bind parseF64) (dst_col.default.bind parseF64) = false)
  ∨ (toLowerModel src_col.data_type ≠ "float" ∧ src_col.default ≠ dst_col.default)

/-- Counterexample for claim C8: Two column pairs that differ **only** in
auto-increment (resp. only in on-update): the claim requires a
MODIFY/ALTER statement for them, but neither driver emits one. -/
theorem alter_diff_claim_counterexample :
    ((ForgeColumn.new "c" "int").auto_increment
        ≠ ({ ForgeColumn.new "c" "int" with auto_increment := true } : ForgeColumn).auto_increment
      ∧ mysql_modify_column_migration (fun _ => none) "t" (ForgeColumn.new "c" "int")
          { ForgeColumn.new "c" "int" with auto_increment := true }
          ForgeConfig.default false = ""
      ∧ postgres_alter_column_statement "t" (ForgeColumn.new "c" "int")
          { ForgeColumn.new "c" "int" with auto_increment := true } = [])
    ∧ ((ForgeColumn.new "d" "timestamp").on_update
        ≠ ({ ForgeColumn.new "d" "timestamp" with
              on_update := some "CURRENT_TIMESTAMP" } : ForgeColumn).on_update
      ∧ mysql_modify_column_migration (fun _ => none) "t" (ForgeColumn.new "d" "timestamp")
          { ForgeColumn.new "d" "timestamp" with on_update := some "CURRENT_TIMESTAMP" }
          ForgeConfig.default false = ""
      ∧ postgres_alter_column_statement "t" (ForgeColumn.new "d" "timestamp")
          { ForgeColumn.new "d" "timestamp" with on_update := some "CURRENT_TIMESTAMP" }
          = []) := by
  exact ⟨⟨by simp [ForgeColumn.new], by decide, by decide⟩,
    ⟨by simp [ForgeColumn.new], by decide, by decide⟩⟩

/-- Claim C8 (amended): For a (desired, actual) column pair considered by
the alter-diff: the MySQL driver emits a `MODIFY COLUMN` statement iff
data type, length, nullability or default differ (float-aware default
comparison when the desired type is `float`); the PostgreSQL driver
emits an `ALTER COLUMN` statement iff data type or nullability differ.
Auto-increment and on-update differences alone never produce a
statement. -/
theorem alter_diff_material_difference
    (parseF64 : String → Option F64) (table_name : String)
    (src_col dst_col : ForgeColumn) (config : ForgeConfig) (destructive : Bool) :
    (mysql_modify_column_migration parseF64 table_name src_col dst_col config destructive
        ≠ "" ↔ MysqlMaterialDiff parseF64 src_col dst_col)
    ∧ (postgres_alter_column_statement table_name src_col dst_col ≠ [] ↔
        (src_col.data_type ≠ dst_col.data_type
          ∨ src_col.is_nullable ≠ dst_col.is_nullable)) := by
  have hne : ("ALTER TABLE `" ++ table_name ++ "` MODIFY COLUMN "
      ++ mysql_field_migration_sql src_col config ++ ";") ≠ "" := by
    intro h
    have hl := congrArg String.length h
    simp [String.length_append] at hl
    exact absurd hl.2 (by decide)
  constructor
  · by_cases h1 : src_col.data_type = dst_col.data_type <;>
    by_cases h2 : src_col.length = dst_col.length <;>
    by_cases h3 : src_col.is_nullable = dst_col.is_nullable <;>
    by_cases h4 : toLowerModel src_col.data_type = "float" <;>
    by_cases h5 : optionF64Beq (src_col.default.bind parseF64)
        (dst_col.default.bind parseF64) = true <;>
    by_cases h6 : src_col.default = dst_col.default <;>
    simp [mysql_modify_column_migration, MysqlMaterialDiff, h1, h2, h3, h4, h5, h6,
      hne, bne_iff_ne] <;> tauto
  · by_cases h1 : src_col.data_type = dst_col.data_type <;>
    by_cases h3 : src_col.is_nullable = dst_col.is_nullable <;>
    simp [postgres_alter_column_statement, h1, h3, bne_iff_ne]

/-- Witness for claim C8: A pair differing only in nullability is emitted by
both drivers; an identical pair is emitted by neither. -/
theorem alter_diff_material_difference_witness :
    (mysql_modify_column_migration (fun _ => none) "t" (ForgeColumn.new "c" "int")
        { ForgeColumn.new "c" "int" with is_nullable := true } ForgeConfig.default false
        ≠ ""
      ∧ postgres_alter_column_statement "t" (ForgeColumn.new "c" "int")
          { ForgeColumn.new "c" "int" with is_nullable := true } ≠ [])
    ∧ (¬ mysql_modify_column_migration (fun _ => none) "t" (ForgeColumn.new "c" "int")
        (ForgeColumn.new "c" "int") ForgeConfig.default false ≠ ""
      ∧ ¬ postgres_alter_column_statement "t" (ForgeColumn.new "c" "int")
          (ForgeColumn.new "c" "int") ≠ []) := by
  have h1 := alter_diff_material_difference (fun _ => none) "t" (ForgeColumn.new "c" "int")
    { ForgeColumn.new "c" "int" with is_nullable := true } ForgeConfig.default false
  have h2 := alter_diff_material_difference (fun _ => none) "t" (ForgeColumn.new "c" "int")
    (ForgeColumn.new "c" "int") ForgeConfig.default false
  refine ⟨⟨h1.1.mpr ?_, h1.2.mpr ?_⟩, ⟨?_, ?_⟩⟩
  · exact Or.inr (Or.inr (Or.inl (by simp [ForgeColumn.new])))
  · exact Or.inr (by simp [ForgeColumn.new])
  · intro hcontra
    rcases h2.1.mp hcontra with h | h | h | ⟨-, h⟩ | ⟨-, h⟩ <;> simp [optionF64Beq] at h
  · intro hcontra
    rcases h2.2.mp hcontra with h | h <;> simp at h

/-- Counterexample for claim C6: A `postgres://` → `mysql://` Replicate run is
*not* rejected: the prefix of the branch raises no error, and it does
attempt connections (to the target first). -/
theorem replicate_direction_claim_counterexample :
    ¬ (((replicate_command_start "postgres://u@h/s" "mysql://u@h/t" true).2.isSome = true)
        ∧ (replicate_command_start "postgres://u@h/s" "mysql://u@h/t" true).1.filter
            ReplEffect.isConnect = []) := by
  intro h
  have := h.1
  rw [show replicate_command_start "postgres://u@h/s" "mysql://u@h/t" true
      = ([.loadConfig, .connectMySql "mysql://u@h/t", .checkTargetEmpty,
          .connectPostgres "postgres://u@h/s"], none) from by decide] at this
  simp at this

/-- Claim C6 (amended): The `Replicate` branch performs no directional-pair
validation: with a `postgres://`/`postgresql://` source and a `mysql://`
target (and an empty target), both URLs pass the scheme dispatch and the
first database action is a connection attempt to the MySQL target,
followed by the emptiness check and the PostgreSQL source connection —
no rejection occurs in this prefix.  Only a URL with an unrecognised
scheme is rejected, and that rejection happens before any connection
attempt. -/
theorem replicate_no_directional_validation (src tgt : String)
    (hsrc_not_mysql : strStartsWith src "mysql://" = false)
    (hsrc : strStartsWith src "postgres://" = true ∨
      strStartsWith src "postgresql://" = true)
    (htgt : strStartsWith tgt "mysql://" = true) :
    replicate_command_start src tgt true
      = ([.loadConfig, .connectMySql tgt, .checkTargetEmpty, .connectPostgres src], none)
    ∧ ∀ url : String, strStartsWith url "mysql://" = false →
        strStartsWith url "postgres://" = false →
        strStartsWith url "postgresql://" = false →
        create_driver_effects url
          = .error ("Unsupported database protocol in URL: " ++ url) := by
  constructor
  · have hsrc' : (strStartsWith src "postgres://" || strStartsWith src "postgresql://") = true := by
      rcases hsrc with h | h <;> simp [h]
    simp [replicate_command_start, create_driver_effects, htgt, hsrc_not_mysql, hsrc']
  · intro url h1 h2 h3
    simp [create_driver_effects, h1, h2, h3]

/-- Witness for claim C6: Concrete URLs for the accepted pg→mysql pair and a
rejected unknown scheme. -/
theorem replicate_no_directional_validation_witness :
    replicate_command_start "postgres://u@h/s" "mysql://u@h/t" true
      = ([.loadConfig, .connectMySql "mysql://u@h/t", .checkTargetEmpty,
          .connectPostgres "postgres://u@h/s"], none)
    ∧ create_driver_effects "oracle://u@h/t"
        = .error ("Unsupported database protocol in URL: " ++ "oracle://u@h/t") := by
  have h := replicate_no_directional_validation "postgres://u@h/s" "mysql://u@h/t"
    (by decide) (Or.inl (by decide)) (by decide)
  exact ⟨h.1, h.2 "oracle://u@h/t" (by decide) (by decide) (by decide)⟩

/-! ### Sorter: node map and table map lemmas -/

theorem lookupLast_mem {assoc : List (String × Nat)} {k : String} {v : Nat}
    (h : lookupLast assoc k = some v) : (k, v) ∈ assoc := by
  induction assoc with
  | nil => simp [lookupLast] at h
  | cons p rest ih =>
    obtain ⟨k', v'⟩ := p
    simp only [lookupLast] at h
    rcases hrec : lookupLast rest k with _ | r
    · rw [hrec] at h
      by_cases hk : k' = k
      · simp [hk] at h
        subst h hk
        exact List.mem_cons_self _ _
      · simp [hk] at h
    · rw [hrec] at h
      cases h
      exact List.mem_cons_of_mem _ (ih hrec)

theorem lookupLast_eq_none {assoc : List (String × Nat)} {k : String}
    (h : k ∉ assoc.map Prod.fst) : lookupLast assoc k = none := by
  induction assoc with
  | nil => rfl
  | cons p rest ih =>
    obtain ⟨k', v'⟩ := p
    simp only [List.map_cons, List.mem_cons] at h
    push_neg at h
    simp only [lookupLast, ih h.2]
    simp [Ne.symm h.1]

theorem lookupLast_isSome {assoc : List (String × Nat)} {k : String}
    (h : k ∈ assoc.map Prod.fst) : ∃ v, lookupLast assoc k = some v := by
  induction assoc with
  | nil => simp at h
  | cons p rest ih =>
    obtain ⟨k', v'⟩ := p
    simp only [lookupLast]
    rcases hrec : lookupLast rest k with _ | r
    · simp only [List.map_cons, List.mem_cons] at h
      rcases h with h | h
      · exact ⟨v', by simp [h.symm]⟩
      · obtain ⟨v, hv⟩ := ih h
        rw [hv] at hrec
        cases hrec
    · exact ⟨r, rfl⟩

theorem nodesAssocAux_map_fst (i : Nat) (ts : List ForgeTable) :
    (nodesAssocAux i ts).map Prod.fst = ts.map (·.name) := by
  induction ts generalizing i with
  | nil => rfl
  | cons t rest ih => simp [nodesAssocAux, ih]

theorem nodesAssocAux_snd_lt {i : Nat} {ts : List ForgeTable} {k : String} {v : Nat}
    (h : (k, v) ∈ nodesAssocAux i ts) : i ≤ v ∧ v < i + ts.length := by
  induction ts generalizing i with
  | nil => simp [nodesAssocAux] at h
  | cons t rest ih =>
    simp only [nodesAssocAux, List.mem_cons] at h
    rcases h with h | h
    · cases h
      simp
    · have := ih h
      simp only [List.length_cons]
      omega

theorem nodesAssocAux_mem_name {i : Nat} {ts : List ForgeTable} {k : String} {v : Nat}
    (h : (k, v) ∈ nodesAssocAux i ts) :
    ∃ T, ts[v - i]? = some T ∧ T.name = k := by
  induction ts generalizing i with
  | nil => simp [nodesAssocAux] at h
  | cons t rest ih =>
    simp only [nodesAssocAux, List.mem_cons] at h
    rcases h with h | h
    · cases h
      exact ⟨t, by simp, rfl⟩
    · obtain ⟨T, hT, hn⟩ := ih h
      have hb := nodesAssocAux_snd_lt h
      refine ⟨T, ?_, hn⟩
      have : v - i = (v - (i + 1)) + 1 := by omega
      rw [this]
      simpa using hT

theorem lookupLast_nodesAssoc {tables : List ForgeTable}
    (hn : (tables.map (·.name)).Nodup) {j : Nat} {T : ForgeTable}
    (hj : tables[j]? = some T) :
    lookupLast (nodesAssoc tables) T.name = some j := by
  suffices h : ∀ (i : Nat) (ts : List ForgeTable), (ts.map (·.name)).Nodup →
      ∀ j T, ts[j]? = some T → lookupLast (nodesAssocAux i ts) T.name = some (i + j) by
    simpa using h 0 tables hn j T hj
  intro i ts
  induction ts generalizing i with
  | nil => intro _ j T hj; simp at hj
  | cons t rest ih =>
    intro hnd j T hj
    simp only [List.map_cons, List.nodup_cons] at hnd
    cases j with
    | zero =>
      simp only [List.getElem?_cons_zero, Option.some.injEq] at hj
      have hnone : lookupLast (nodesAssocAux (i + 1) rest) T.name = none := by
        apply lookupLast_eq_none
        rw [nodesAssocAux_map_fst, ← hj]
        exact hnd.1
      simp [nodesAssocAux, lookupLast, hnone, hj]
    | succ j' =>
      simp only [List.getElem?_cons_succ] at hj
      have hrec := ih (i + 1) hnd.2 j' T hj
      simp only [nodesAssocAux, lookupLast, hrec]
      congr 1
      omega

theorem tableMapLookup_eq_none {ts : List ForgeTable} {k : String}
    (h : k ∉ ts.map (·.name)) : tableMapLookup ts k = none := by
  induction ts with
  | nil => rfl
  | cons t rest ih =>
    simp only [List.map_cons, List.mem_cons] at h
    push_neg at h
    simp only [tableMapLookup, ih h.2]
    simp [Ne.symm h.1]

theorem tableMapLookup_getElem {tables : List ForgeTable}
    (hn : (tables.map (·.name)).Nodup) {j : Nat} {T : ForgeTable}
    (hj : tables[j]? = some T) :
    tableMapLookup tables T.name = some T := by
  induction tables generalizing j with
  | nil => simp at hj
  | cons t rest ih =>
    simp only [List.map_cons, List.nodup_cons] at hn
    cases j with
    | zero =>
      simp only [List.getElem?_cons_zero, Option.some.injEq] at hj
      have hnone : tableMapLookup rest T.name = none := by
        apply tableMapLookup_eq_none
        rw [← hj]
        exact hn.1
      simp [tableMapLookup, hnone, hj]
    | succ j' =>
      simp only [List.getElem?_cons_succ] at hj
      have hrec := ih hn.2 hj
      simp [tableMapLookup, hrec]

/-! ### Sorter: edge construction lemmas -/

theorem buildEdges_ok {assoc : List (String × Nat)} {ts : List ForgeTable}
    (h : ∀ t ∈ ts, ∃ v, lookupLast assoc t.name = some v) :
    ∃ es, buildEdges assoc ts = .ok es := by
  induction ts with
  | nil => exact ⟨[], rfl⟩
  | cons t rest ih =>
    obtain ⟨v, hv⟩ := h t (List.mem_cons_self _ _)
    obtain ⟨es, hes⟩ := ih (fun t' ht' => h t' (List.mem_cons_of_mem _ ht'))
    refine ⟨(t.foreign_keys.filterMap (fun fk =>
      (lookupLast assoc fk.ref_table).map (fun to_idx => (to_idx, v)))) ++ es, ?_⟩
    simp [buildEdges, hv, hes, Except.map]

theorem buildEdges_mem {assoc : List (String × Nat)} {ts : List ForgeTable}
    {es : List (Nat × Nat)} (h : buildEdges assoc ts = .ok es)
    {T : ForgeTable} (hT : T ∈ ts) {fi : Nat}
    (hfi : lookupLast assoc T.name = some fi)
    {fk : ForgeForeignKey} (hfk : fk ∈ T.foreign_keys) {ti : Nat}
    (hti : lookupLast assoc fk.ref_table = some ti) :
    (ti, fi) ∈ es := by
  induction ts generalizing es with
  | nil => simp at hT
  | cons t rest ih =>
    simp only [buildEdges] at h
    rcases hlt : lookupLast assoc t.name with _ | v
    · rw [hlt] at h
      cases h
    · rw [hlt] at h
      rcases hrec : buildEdges assoc rest with e' | es'
      · rw [hrec] at h
        cases h
      · rw [hrec] at h
        simp only [Except.map, Except.ok.injEq] at h
        subst h
        rcases List.mem_cons.mp hT with rfl | hT'
        · rw [hfi] at hlt
          cases hlt
          apply List.mem_append_left
          apply List.mem_filterMap.mpr
          exact ⟨fk, hfk, by rw [hti]; rfl⟩
        · exact List.mem_append_right _ (ih hrec hT')

theorem buildEdges_wf {assoc : List (String × Nat)} {ts : List ForgeTable}
    {es : List (Nat × Nat)} {n : Nat}
    (hb : ∀ k v, lookupLast assoc k = some v → v < n)
    (h : buildEdges assoc ts = .ok es) :
    ∀ p ∈ es, p.1 < n ∧ p.2 < n := by
  induction ts generalizing es with
  | nil =>
    simp only [buildEdges, Except.ok.injEq] at h
    subst h
    simp
  | cons t rest ih =>
    simp only [buildEdges] at h
    rcases hlt : lookupLast assoc t.name with _ | v
    · rw [hlt] at h; cases h
    · rw [hlt] at h
      rcases hrec : buildEdges assoc rest with e' | es'
      · rw [hrec] at h; cases h
      · rw [hrec] at h
        simp only [Except.map, Except.ok.injEq] at h
        subst h
        intro p hp
        rcases List.mem_append.mp hp with hp' | hp'
        · obtain ⟨fk, -, hfk⟩ := List.mem_filterMap.mp hp'
          rcases hti : lookupLast assoc fk.ref_table with _ | ti
          · rw [hti] at hfk; cases hfk
          · rw [hti] at hfk
            cases hfk
            exact ⟨hb _ _ hti, hb _ _ hlt⟩
        · exact ih hrec p hp'

/-! ### Sorter: Kahn soundness and completeness -/

theorem kahnAux_sound (edges : List (Nat × Nat)) :
    ∀ (fuel : Nat) (remaining : List Nat), remaining.Nodup →
      ∀ l, kahnAux edges fuel remaining = some l →
        l.Perm remaining ∧
        ∀ a b, (a, b) ∈ edges → a ∈ remaining → b ∈ remaining →
          l.indexOf a < l.indexOf b := by
  intro fuel
  induction fuel with
  | zero =>
    intro remaining hnd l hl
    simp only [kahnAux] at hl
    by_cases hre : remaining.isEmpty
    · rw [if_pos hre] at hl
      cases hl
      rw [List.isEmpty_iff.mp hre]
      exact ⟨List.Perm.refl _, by simp⟩
    · rw [if_neg hre] at hl
      cases hl
  | succ fuel ih =>
    intro remaining hnd l hl
    by_cases hre : remaining.isEmpty
    · simp only [kahnAux, if_pos hre] at hl
      cases hl
      rw [List.isEmpty_iff.mp hre]
      exact ⟨List.Perm.refl _, by simp⟩
    · simp only [kahnAux, if_neg hre] at hl
      rcases hsel : selectSource remaining edges with _ | u
      · rw [hsel] at hl
        simp at hl
      · rw [hsel] at hl
        rcases hrec : kahnAux edges fuel (remaining.erase u) with _ | l'
        · simp [hrec] at hl
        · simp [hrec] at hl
          subst hl
          have hu_mem : u ∈ remaining := List.mem_of_find?_eq_some hsel
          have hu_pred :
              edges.any (fun e => e.2 == u && remaining.contains e.1) = false := by
            have := List.find?_some hsel
            simpa using this
          obtain ⟨hperm', horder'⟩ :=
            ih (remaining.erase u) (hnd.erase u) l' hrec
          refine ⟨(hperm'.cons u).trans (List.perm_cons_erase hu_mem).symm, ?_⟩
          intro a b hab ha hb
          have hbu : b ≠ u := by
            rintro rfl
            have hany : edges.any (fun e => e.2 == b && remaining.contains e.1) = true :=
              List.any_eq_true.mpr ⟨(a, b), hab, by simp [ha]⟩
            rw [hu_pred] at hany
            cases hany
          by_cases hau : a = u
          · subst hau
            rw [List.indexOf_cons_self, List.indexOf_cons_ne _ (Ne.symm hbu)]
            exact Nat.succ_pos _
          · have ha' : a ∈ remaining.erase u := (List.mem_erase_of_ne hau).mpr ha
            have hb' : b ∈ remaining.erase u := (List.mem_erase_of_ne hbu).mpr hb
            have := horder' a b hab ha' hb'
            rw [List.indexOf_cons_ne _ (Ne.symm hau), List.indexOf_cons_ne _ (Ne.symm hbu)]
            omega

theorem stuck_cycle (edges : List (Nat × Nat)) (remaining : List Nat)
    (hne : remaining ≠ [])
    (hpred : ∀ u ∈ remaining, ∃ w, w ∈ remaining ∧ (w, u) ∈ edges) :
    ∃ u ∈ remaining, ∃ k, 0 < k ∧ k ≤ remaining.length ∧ pathB edges k u u = true := by
  classical
  obtain ⟨u0, hu0⟩ : ∃ u, u ∈ remaining := by
    cases remaining with
    | nil => exact absurd rfl hne
    | cons a l => exact ⟨a, List.mem_cons_self _ _⟩
  choose f hfmem hfedge using hpred
  let g : Nat → {x : Nat // x ∈ remaining} := fun k =>
    Nat.rec ⟨u0, hu0⟩ (fun _ p => ⟨f p.1 p.2, hfmem p.1 p.2⟩) k
  have hgstep : ∀ k, ((g (k + 1)).1, (g k).1) ∈ edges := fun k => hfedge (g k).1 (g k).2
  have hpath : ∀ d s, pathB edges d (g (s + d)).1 (g s).1 = true := by
    intro d
    induction d with
    | zero =>
      intro s
      simp [pathB]
    | succ d ihd =>
      intro s
      simp only [pathB]
      apply List.any_eq_true.mpr
      refine ⟨((g (s + d + 1)).1, (g (s + d)).1), hgstep (s + d), ?_⟩
      rw [Bool.and_eq_true]
      exact ⟨beq_iff_eq.mpr rfl, ihd s⟩
  have key : ∀ i j, i < j → j ≤ remaining.length → (g i).1 = (g j).1 →
      ∃ u ∈ remaining, ∃ k, 0 < k ∧ k ≤ remaining.length ∧ pathB edges k u u = true := by
    intro i j hij hjle hgeq
    refine ⟨(g j).1, (g j).2, j - i, by omega, by omega, ?_⟩
    have hp := hpath (j - i) i
    rw [show i + (j - i) = j from by omega] at hp
    rw [hgeq] at hp
    exact hp
  have hcard : remaining.toFinset.card < (Finset.range (remaining.length + 1)).card := by
    have := List.toFinset_card_le remaining
    simp only [Finset.card_range]
    omega
  obtain ⟨i, hi, j, hj, hij, heq⟩ :=
    Finset.exists_ne_map_eq_of_card_lt_of_maps_to hcard
      (fun k _ => List.mem_toFinset.mpr (g k).2)
  rcases Nat.lt_or_ge i j with hlt | hge
  · exact key i j hlt (by simpa using Nat.lt_succ_iff.mp (Finset.mem_range.mp hj)) heq
  · have hji : j < i := Nat.lt_of_le_of_ne hge (Ne.symm hij)
    exact key j i hji (by simpa using Nat.lt_succ_iff.mp (Finset.mem_range.mp hi)) heq.symm

theorem kahnAux_complete (edges : List (Nat × Nat)) (n : Nat) :
    ∀ (fuel : Nat) (remaining : List Nat), remaining.length ≤ fuel →
      (∀ u ∈ remaining, u < n) → remaining.length ≤ n →
      kahnAux edges fuel remaining = none →
      ∃ u, u < n ∧ ∃ k, 0 < k ∧ k ≤ n ∧ pathB edges k u u = true := by
  intro fuel
  induction fuel with
  | zero =>
    intro remaining hfuel hlt hlen hnone
    have : remaining = [] := List.length_eq_zero.mp (Nat.le_zero.mp hfuel)
    subst this
    simp [kahnAux] at hnone
  | succ fuel ih =>
    intro remaining hfuel hlt hlen hnone
    by_cases hre : remaining.isEmpty
    · simp [kahnAux, hre] at hnone
    · simp only [kahnAux, if_neg hre] at hnone
      rcases hsel : selectSource remaining edges with _ | u
      · have hne : remaining ≠ [] := by simpa [List.isEmpty_iff] using hre
        have hpred : ∀ u ∈ remaining, ∃ w, w ∈ remaining ∧ (w, u) ∈ edges := by
          intro u hu
          have h2 := List.find?_eq_none.mp hsel u hu
          simp only [Bool.not_eq_true', Bool.not_eq_false] at h2
          obtain ⟨e, he, hcond⟩ := List.any_eq_true.mp h2
          obtain ⟨w, v⟩ := e
          simp only [Bool.and_eq_true, beq_iff_eq] at hcond
          obtain ⟨rfl, hw⟩ := hcond
          exact ⟨w, by simpa using hw, he⟩
        obtain ⟨u, hu_mem, k, hk0, hkle, hpathk⟩ := stuck_cycle edges remaining hne hpred
        exact ⟨u, hlt u hu_mem, k, hk0, le_trans hkle hlen, hpathk⟩
      · rw [hsel] at hnone
        have hu_mem : u ∈ remaining := List.mem_of_find?_eq_some hsel
        have herase : (remaining.erase u).length = remaining.length - 1 :=
          List.length_erase_of_mem hu_mem
        have h1 : 1 ≤ remaining.length := by
          cases remaining with
          | nil => simp at hu_mem
          | cons a l => simp
        rcases hrec : kahnAux edges fuel (remaining.erase u) with _ | l'
        · exact ih (remaining.erase u) (by omega)
            (fun v hv => hlt v (List.mem_of_mem_erase hv)) (by omega) hrec
        · simp [hrec] at hnone


theorem pathB_order (edges : List (Nat × Nat)) (l : List Nat)
    (horder : ∀ a b, (a, b) ∈ edges → l.indexOf a < l.indexOf b) :
    ∀ k u v, 0 < k → pathB edges k u v = true → l.indexOf u < l.indexOf v := by
  intro k
  induction k with
  | zero =>
    intro u v h0
    omega
  | succ k ihk =>
    intro u v _ hp
    simp only [pathB] at hp
    obtain ⟨e, he, hcond⟩ := List.any_eq_true.mp hp
    obtain ⟨a, w⟩ := e
    rw [Bool.and_eq_true, beq_iff_eq] at hcond
    obtain ⟨rfl, hrest⟩ := hcond
    cases k with
    | zero =>
      have hwv : w = v := by simpa [pathB] using hrest
      subst hwv
      exact horder a w he
    | succ k' =>
      exact Nat.lt_trans (horder a w he) (ihk w v (Nat.succ_pos _) hrest)

theorem toposortModel_sound {n : Nat} {edges : List (Nat × Nat)} {l : List Nat}
    (hwf : ∀ p ∈ edges, p.1 < n ∧ p.2 < n)
    (h : toposortModel n edges = some l) :
    l.Perm (List.range n) ∧ ∀ a b, (a, b) ∈ edges → l.indexOf a < l.indexOf b := by
  obtain ⟨hperm, horder⟩ := kahnAux_sound edges n (List.range n) (List.nodup_range n) l h
  refine ⟨hperm, fun a b hab => ?_⟩
  have hb := hwf (a, b) hab
  exact horder a b hab (List.mem_range.mpr hb.1) (List.mem_range.mpr hb.2)

theorem toposortModel_none_cycle {n : Nat} {edges : List (Nat × Nat)}
    (h : toposortModel n edges = none) : hasCycleB n edges = true := by
  obtain ⟨u, hu, k, hk0, hkn, hp⟩ :=
    kahnAux_complete edges n n (List.range n) (by simp)
      (fun u hu => List.mem_range.mp hu) (by simp) h
  apply List.any_eq_true.mpr
  refine ⟨u, List.mem_range.mpr hu, ?_⟩
  apply List.any_eq_true.mpr
  refine ⟨k - 1, List.mem_range.mpr (by omega), ?_⟩
  rw [show k - 1 + 1 = k from by omega]
  exact hp

theorem toposortModel_cycle_none {n : Nat} {edges : List (Nat × Nat)}
    (hwf : ∀ p ∈ edges, p.1 < n ∧ p.2 < n)
    (hcyc : hasCycleB n edges = true) : toposortModel n edges = none := by
  rcases htop : toposortModel n edges with _ | l
  · rfl
  · exfalso
    obtain ⟨-, horder⟩ := toposortModel_sound hwf htop
    obtain ⟨u, -, hinner⟩ := List.any_eq_true.mp hcyc
    obtain ⟨k, -, hp⟩ := List.any_eq_true.mp hinner
    have := pathB_order edges l horder (k + 1) u u (Nat.succ_pos _) hp
    omega

/-! ### Sorter: schema-level lemmas -/

theorem lookupLast_nodesAssoc_lt {tables : List ForgeTable} {k : String} {v : Nat}
    (h : lookupLast (nodesAssoc tables) k = some v) : v < tables.length := by
  have := nodesAssocAux_snd_lt (lookupLast_mem h)
  omega

theorem schema_buildEdges_ok (schema : ForgeSchema) :
    buildEdges (nodesAssoc schema.tables) schema.tables = .ok (schemaEdges schema) := by
  obtain ⟨es, hes⟩ := @buildEdges_ok (nodesAssoc schema.tables)
    schema.tables (fun t ht => by
      apply lookupLast_isSome
      rw [nodesAssoc, nodesAssocAux_map_fst]
      exact List.mem_map_of_mem _ ht)
  rw [hes]
  simp [schemaEdges, hes]

theorem schemaEdges_wf (schema : ForgeSchema) :
    ∀ p ∈ schemaEdges schema,
      p.1 < schema.tables.length ∧ p.2 < schema.tables.length :=
  buildEdges_wf (fun _ _ h => lookupLast_nodesAssoc_lt h) (schema_buildEdges_ok schema)

theorem range_filterMap_getElem {α : Type} (l : List α) :
    (List.range l.length).filterMap (fun i => l[i]?) = l := by
  induction l with
  | nil => rfl
  | cons x xs ih =>
    simp only [List.length_cons, List.range_succ_eq_map, List.filterMap_cons,
      List.getElem?_cons_zero, List.filterMap_map]
    congr 1
    have hcg : ∀ a ∈ List.range xs.length,
        ((fun i => (x :: xs)[i]?) ∘ Nat.succ) a = (fun i => xs[i]?) a := by
      intro a ha
      simp [Function.comp]
    rw [List.filterMap_congr hcg, ih]

theorem filterMap_indexOf_lt {β : Type} [DecidableEq β] (g : Nat → β)
    (F : Nat → Option β) :
    ∀ (idxs : List Nat), (∀ x ∈ idxs, F x = some (g x)) →
      (∀ x ∈ idxs, ∀ y ∈ idxs, g x = g y → x = y) →
      ∀ i j, i ∈ idxs → j ∈ idxs → idxs.indexOf i < idxs.indexOf j →
        (idxs.filterMap F).indexOf (g i) < (idxs.filterMap F).indexOf (g j) := by
  intro idxs
  induction idxs with
  | nil => intro _ _ i j hi; simp at hi
  | cons x rest ih =>
    intro hF hg i j hi hj hij
    have hFx : F x = some (g x) := hF x (List.mem_cons_self _ _)
    have hexp : List.filterMap F (x :: rest) = g x :: List.filterMap F rest := by
      rw [List.filterMap_cons, hFx]
    rw [hexp]
    by_cases hix : i = x
    · have hi0 : List.indexOf i (x :: rest) = 0 := by
        rw [hix]
        exact List.indexOf_cons_self _ _
      have hjx : j ≠ x := by
        intro hc
        have hj0 : List.indexOf j (x :: rest) = 0 := by
          rw [hc]
          exact List.indexOf_cons_self _ _
        omega
      have hgjx : g j ≠ g x := fun hc => hjx (hg j hj x (List.mem_cons_self _ _) hc)
      have hgix : g i = g x := by rw [hix]
      rw [hgix, List.indexOf_cons_self, List.indexOf_cons_ne _ (Ne.symm hgjx)]
      exact Nat.succ_pos _
    · have hjx : j ≠ x := by
        intro hcontra
        rw [hcontra, List.indexOf_cons_self] at hij
        omega
      have hir : i ∈ rest := (List.mem_cons.mp hi).resolve_left hix
      have hjr : j ∈ rest := (List.mem_cons.mp hj).resolve_left hjx
      have hgi : g i ≠ g x := fun hcontra =>
        hix (hg i hi x (List.mem_cons_self _ _) hcontra)
      have hgj : g j ≠ g x := fun hcontra =>
        hjx (hg j hj x (List.mem_cons_self _ _) hcontra)
      rw [List.indexOf_cons_ne _ (Ne.symm hix), List.indexOf_cons_ne _ (Ne.symm hjx)] at hij
      rw [List.indexOf_cons_ne _ (Ne.symm hgi), List.indexOf_cons_ne _ (Ne.symm hgj)]
      have hrec := ih (fun a ha => hF a (List.mem_cons_of_mem _ ha))
        (fun a ha b hb => hg a (List.mem_cons_of_mem _ ha) b (List.mem_cons_of_mem _ hb))
        i j hir hjr (by omega)
      omega

/-- Claim C1: For a schema with distinct table names whose foreign-key
graph (edges `referenced → referencing`, foreign keys to absent tables
ignored) is acyclic, `sort_tables_by_dependencies` returns `Ok` with a
permutation of the tables in which every referenced table present in the
schema appears before its referencing table. -/
theorem sort_tables_by_dependencies_correct (schema : ForgeSchema)
    (hnames : (schema.tables.map (·.name)).Nodup)
    (hacyc : hasCycleB schema.tables.length (schemaEdges schema) = false) :
    ∃ sorted, sort_tables_by_dependencies schema = .ok sorted
      ∧ sorted.Perm schema.tables
      ∧ ∀ T ∈ schema.tables, ∀ fk ∈ T.foreign_keys, ∀ R ∈ schema.tables,
          R.name = fk.ref_table →
          (sorted.map (·.name)).indexOf fk.ref_table
            < (sorted.map (·.name)).indexOf T.name := by
  have hok := schema_buildEdges_ok schema
  have hwf := schemaEdges_wf schema
  rcases htop : toposortModel schema.tables.length (schemaEdges schema) with _ | idxs
  · rw [toposortModel_none_cycle htop] at hacyc
    cases hacyc
  · obtain ⟨hperm, horder⟩ := toposortModel_sound hwf htop
    have hidxlt : ∀ i ∈ idxs, i < schema.tables.length := fun i hi =>
      List.mem_range.mp (hperm.mem_iff.mp hi)
    have hFeq : ∀ i ∈ idxs,
        (schema.tables[i]?).bind (fun t => tableMapLookup schema.tables t.name)
          = schema.tables[i]? := by
      intro i hi
      have hlt := hidxlt i hi
      have hsome : schema.tables[i]? = some schema.tables[i] :=
        List.getElem?_eq_getElem hlt
      rw [hsome, Option.some_bind]
      exact tableMapLookup_getElem hnames hsome
    refine ⟨idxs.filterMap (fun idx =>
      (schema.tables[idx]?).bind (fun t => tableMapLookup schema.tables t.name)),
      ?_, ?_, ?_⟩
    · simp [sort_tables_by_dependencies, hok, htop]
    · rw [List.filterMap_congr hFeq]
      exact (hperm.filterMap _).trans (by rw [range_filterMap_getElem])
    · intro T hT fk hfk R hR hRname
      obtain ⟨jdx, hjget⟩ := List.mem_iff_getElem?.mp hT
      obtain ⟨ridx, hrget⟩ := List.mem_iff_getElem?.mp hR
      have hfi := lookupLast_nodesAssoc hnames hjget
      have hti : lookupLast (nodesAssoc schema.tables) fk.ref_table = some ridx := by
        have h := lookupLast_nodesAssoc hnames hrget
        rwa [hRname] at h
      have hedge : (ridx, jdx) ∈ schemaEdges schema := buildEdges_mem hok hT hfi hfk hti
      have hij : idxs.indexOf ridx < idxs.indexOf jdx := horder ridx jdx hedge
      have hrmem : ridx ∈ idxs :=
        hperm.mem_iff.mpr (List.mem_range.mpr (lookupLast_nodesAssoc_lt hti))
      have hjmem : jdx ∈ idxs :=
        hperm.mem_iff.mpr (List.mem_range.mpr (lookupLast_nodesAssoc_lt hfi))
      have hnmr : ((fun i => ((schema.tables[i]?).map (·.name)).getD "") ridx)
          = fk.ref_table := by
        simp [hrget, hRname]
      have hnmj : ((fun i => ((schema.tables[i]?).map (·.name)).getD "") jdx)
          = T.name := by
        simp [hjget]
      rw [List.filterMap_congr hFeq, List.map_filterMap, ← hnmr, ← hnmj]
      apply filterMap_indexOf_lt (fun i => ((schema.tables[i]?).map (·.name)).getD "")
        (fun i => (schema.tables[i]?).map (·.name)) idxs ?_ ?_ ridx jdx hrmem hjmem hij
      · intro x hx
        simp [List.getElem?_eq_getElem (hidxlt x hx)]
      · intro x hx y hy hxy
        have hx' : (schema.tables.map (·.name))[x]?
            = some ((fun i => ((schema.tables[i]?).map (·.name)).getD "") x) := by
          rw [List.getElem?_map]
          simp [List.getElem?_eq_getElem (hidxlt x hx)]
        have hy' : (schema.tables.map (·.name))[y]?
            = some ((fun i => ((schema.tables[i]?).map (·.name)).getD "") y) := by
          rw [List.getElem?_map]
          simp [List.getElem?_eq_getElem (hidxlt y hy)]
        apply List.getElem?_inj
          (show x < (schema.tables.map (·.name)).length by
            simpa using hidxlt x hx) hnames
        rw [hx', hy', hxy]

/-- Witness for claim C1: The spec's example: `orders → customers`,
`items → orders`; names distinct, graph acyclic. -/
theorem sort_tables_by_dependencies_correct_witness :
    (let customers := ForgeTable.new "customers"
     let orders := { ForgeTable.new "orders" with
       foreign_keys := [⟨"fk_orders_customers", "customer_id", "customers", "id", none, none⟩] }
     let items := { ForgeTable.new "items" with
       foreign_keys := [⟨"fk_items_orders", "order_id", "orders", "id", none, none⟩] }
     let schema : ForgeSchema := ⟨⟨"", "", "", "", ""⟩, [orders, customers, items]⟩
     (schema.tables.map (·.name)).Nodup
       ∧ hasCycleB schema.tables.length (schemaEdges schema) = false
       ∧ ∃ sorted, sort_tables_by_dependencies schema = .ok sorted
           ∧ sorted.Perm schema.tables
           ∧ ∀ T ∈ schema.tables, ∀ fk ∈ T.foreign_keys, ∀ R ∈ schema.tables,
               R.name = fk.ref_table →
               (sorted.map (·.name)).indexOf fk.ref_table
                 < (sorted.map (·.name)).indexOf T.name) :=
  ⟨by decide, by decide, sort_tables_by_dependencies_correct _ (by decide) (by decide)⟩

/-- Claim C2: A schema whose foreign-key graph has a cycle among present
tables makes `sort_tables_by_dependencies` fail with the
circular-dependency error; the `Err` carries no table list, so no
partial order is produced. -/
theorem sort_tables_by_dependencies_cycle (schema : ForgeSchema)
    (hcyc : hasCycleB schema.tables.length (schemaEdges schema) = true) :
    sort_tables_by_dependencies schema =
      .error "Circular dependency detected! Die Tabellen hängen im Kreis voneinander ab." := by
  have hok := schema_buildEdges_ok schema
  have hnone := toposortModel_cycle_none (schemaEdges_wf schema) hcyc
  simp [sort_tables_by_dependencies, hok, hnone]

/-- Witness for claim C2: Two mutually referencing tables. -/
theorem sort_tables_by_dependencies_cycle_witness :
    (let a := { ForgeTable.new "a" with
       foreign_keys := [⟨"fk_a_b", "b_id", "b", "id", none, none⟩] }
     let b := { ForgeTable.new "b" with
       foreign_keys := [⟨"fk_b_a", "a_id", "a", "id", none, none⟩] }
     let schema : ForgeSchema := ⟨⟨"", "", "", "", ""⟩, [a, b]⟩
     hasCycleB schema.tables.length (schemaEdges schema) = true
       ∧ sort_tables_by_dependencies schema =
           .error "Circular dependency detected! Die Tabellen hängen im Kreis voneinander ab.") :=
  ⟨by decide, sort_tables_by_dependencies_cycle _ (by decide)⟩

end FluxForge
